import Mathlib

/-!
# Verification of `face_deid_ct.py`

A shallow embedding of the CT face de-identification pipeline
(`face_deid_ct.py`) together with theorems settling the specification
claims about it.

Conventions of the embedding:
* numpy `int16` arrays are modelled as `ℤ` values together with the
  explicit wrap `wrap16` (two's-complement wrap-around modulo `2^16`),
  applied exactly where the code performs an `astype(np.int16)` /
  `np.int16(...)` conversion or an in-place `int16` addition;
* DICOM `RescaleSlope` / `RescaleIntercept` values are modelled as `ℚ`
  (the float64 arithmetic of the code is exact on these magnitudes);
  `float → int16` conversion truncates toward zero (`ratTrunc`) and wraps;
* 2-D slices are functions `Pos → ℤ` (intensities) or `Pos → ℕ` (masks)
  over positions `(row, column)`, with explicit bounds `H`, `W`;
* flattened element-wise numpy operations on volumes are modelled on
  `List ℤ` / `List ℕ` in row-major order;
* `np.random.choice` is modelled by an arbitrary stream `rnd : ℕ → ℕ`
  of drawn indices, reduced modulo the candidate-list length.
-/

set_option maxRecDepth 40000

namespace FaceDeid

/-! ## Module-level constants (`face_deid_ct.py`, lines 10-14) -/

def FACE_MAX_VALUE : ℤ := 50

def FACE_MIN_VALUE : ℤ := -125

def AIR_THRESHOLD : ℤ := -800

def KERNEL_SIZE : ℕ := 35

/-! ## int16 and float-conversion helpers -/

/-- Two's-complement wrap of an integer into the `int16` range
`[-32768, 32767]`, as performed by numpy `astype(np.int16)` on
out-of-range integers. -/
def wrap16 (z : ℤ) : ℤ := (z + 32768) % 65536 - 32768

/-- Truncation of a rational toward zero, as performed by a C-style
`float64 → int` conversion (`astype(np.int16)` on a float array,
`np.int16(x)` on a float scalar), before the wrap into 16 bits. -/
def ratTrunc (q : ℚ) : ℤ := q.num / (q.den : ℤ)

theorem wrap16_lb (z : ℤ) : -32768 ≤ wrap16 z := by
  unfold wrap16; omega

theorem wrap16_ub (z : ℤ) : wrap16 z ≤ 32767 := by
  unfold wrap16; omega

theorem wrap16_eq_self {z : ℤ} (h1 : -32768 ≤ z) (h2 : z ≤ 32767) :
    wrap16 z = z := by
  unfold wrap16; omega

theorem wrap16_emod (z : ℤ) : wrap16 z % 65536 = z % 65536 := by
  unfold wrap16; omega

theorem ratTrunc_intCast (k : ℤ) : ratTrunc (k : ℚ) = k := by
  unfold ratTrunc
  rw [Rat.num_intCast, Rat.den_intCast]
  simp

theorem ratTrunc_zero : ratTrunc (0 : ℚ) = 0 := by
  have h := ratTrunc_intCast 0
  simpa using h

/-! ## `get_pixels_hu` (lines 29-51) and the write-back inverse
(`save_new_dicom_files`, line 156-159), per voxel.

`get_pixels_hu` stacks the raw pixel arrays, casts to `int16`, maps the
sentinel `-2000` to `0`, multiplies by the slope in `float64` and
truncates back to `int16` when the slope is not 1, then adds
`np.int16(intercept)` in `int16` arithmetic. All of this is
element-wise, so it is embedded per voxel. -/

/-- The raw sample after the `astype(np.int16)` cast and the
sentinel replacement `image[image == -2000] = 0`. -/
def sentinel_to_zero (raw : ℤ) : ℤ :=
  if wrap16 raw = -2000 then 0 else wrap16 raw

/-- The slice value after the slope stage: multiplied by the slope in
`float64` and truncated back to `int16` when the slope is not 1. -/
def slope_stage (slope : ℚ) (v : ℤ) : ℤ :=
  if slope ≠ 1 then wrap16 (ratTrunc (slope * (v : ℚ))) else v

/-- Per-voxel embedding of `get_pixels_hu`: calibration of one raw
sample with a given rescale slope and intercept. -/
def get_pixels_hu_voxel (slope intercept : ℚ) (raw : ℤ) : ℤ :=
  wrap16 (slope_stage slope (sentinel_to_zero raw) + wrap16 (ratTrunc intercept))

/-- Per-voxel embedding of the inverse-calibration in
`save_new_dicom_files`: `(value - intercept) / slope` in `float64`,
then `astype(np.int16)`. -/
def save_voxel (slope intercept : ℚ) (v : ℤ) : ℤ :=
  wrap16 (ratTrunc (((v : ℚ) - intercept) / slope))

/-- Helper: the calibrated value for an integer slope `m`, an
in-range integer intercept `b` and an in-range non-sentinel raw sample
is exactly `m * raw + b` whenever that product and sum stay in the
`int16` range. -/
theorem get_pixels_hu_voxel_eq_exact (m b raw : ℤ)
    (hraw1 : -32768 ≤ raw) (hraw2 : raw ≤ 32767) (hsent : raw ≠ -2000)
    (hb1 : -32768 ≤ b) (hb2 : b ≤ 32767)
    (hp1 : -32768 ≤ m * raw) (hp2 : m * raw ≤ 32767)
    (hs1 : -32768 ≤ m * raw + b) (hs2 : m * raw + b ≤ 32767) :
    get_pixels_hu_voxel (m : ℚ) (b : ℚ) raw = m * raw + b := by
  have hsen : sentinel_to_zero raw = raw := by
    unfold sentinel_to_zero
    rw [wrap16_eq_self hraw1 hraw2, if_neg hsent]
  have hsl : slope_stage (m : ℚ) raw = m * raw := by
    unfold slope_stage
    by_cases hm : (m : ℚ) ≠ 1
    · rw [if_pos hm]
      rw [show ((m : ℚ) * (raw : ℚ)) = ((m * raw : ℤ) : ℚ) by push_cast; ring]
      rw [ratTrunc_intCast, wrap16_eq_self hp1 hp2]
    · rw [if_neg hm]
      push_neg at hm
      have hm1 : m = 1 := by exact_mod_cast hm
      subst hm1
      ring
  unfold get_pixels_hu_voxel
  rw [hsen, hsl, ratTrunc_intCast, wrap16_eq_self hb1 hb2,
    wrap16_eq_self hs1 hs2]

theorem wrap16_modEq (z : ℤ) : wrap16 z ≡ z [ZMOD 65536] :=
  wrap16_emod z

/-- C10: calibrated intensities are computed in 16-bit signed
arithmetic: for an integer slope and intercept and an in-range,
non-sentinel raw sample, the calibrated voxel is congruent to
`slope * raw + intercept` modulo `2^16` and lies in
`[-32768, 32767]` — values outside the range wrap instead of
saturating or raising. -/
theorem calibration_int16_wrap (m b raw : ℤ)
    (hraw1 : -32768 ≤ raw) (hraw2 : raw ≤ 32767) (hsent : raw ≠ -2000) :
    get_pixels_hu_voxel (m : ℚ) (b : ℚ) raw ≡ m * raw + b [ZMOD 65536] ∧
    -32768 ≤ get_pixels_hu_voxel (m : ℚ) (b : ℚ) raw ∧
    get_pixels_hu_voxel (m : ℚ) (b : ℚ) raw ≤ 32767 := by
  have hsen : sentinel_to_zero raw = raw := by
    unfold sentinel_to_zero
    rw [wrap16_eq_self hraw1 hraw2, if_neg hsent]
  have h1 : slope_stage (m : ℚ) raw ≡ m * raw [ZMOD 65536] := by
    unfold slope_stage
    by_cases hm : (m : ℚ) ≠ 1
    · rw [if_pos hm]
      rw [show ((m : ℚ) * (raw : ℚ)) = ((m * raw : ℤ) : ℚ) by push_cast; ring]
      rw [ratTrunc_intCast]
      exact wrap16_modEq (m * raw)
    · rw [if_neg hm]
      push_neg at hm
      have hm1 : m = 1 := by exact_mod_cast hm
      subst hm1
      rw [one_mul]
  have h2 : wrap16 (ratTrunc (b : ℚ)) ≡ b [ZMOD 65536] := by
    rw [ratTrunc_intCast]
    exact wrap16_modEq b
  refine ⟨?_, ?_, ?_⟩
  · unfold get_pixels_hu_voxel
    rw [hsen]
    exact (wrap16_modEq _).trans (Int.ModEq.add h1 h2)
  · exact wrap16_lb _
  · exact wrap16_ub _

/-- Witness for C10 at slope 2, intercept 0, raw sample 20000. -/
theorem calibration_int16_wrap_witness :
    get_pixels_hu_voxel ((2 : ℤ) : ℚ) ((0 : ℤ) : ℚ) 20000
        ≡ 2 * 20000 + 0 [ZMOD 65536] ∧
    -32768 ≤ get_pixels_hu_voxel ((2 : ℤ) : ℚ) ((0 : ℤ) : ℚ) 20000 ∧
    get_pixels_hu_voxel ((2 : ℤ) : ℚ) ((0 : ℤ) : ℚ) 20000 ≤ 32767 :=
  calibration_int16_wrap 2 0 20000 (by decide) (by decide) (by decide)

/-- C6, counterexample: the sentinel raw value `-2000` is mapped to `0`
before calibration, so with slope 1 and intercept 0 the write-back
inverse returns `0`, not the original raw sample `-2000`. -/
theorem roundtrip_calibration_counterexample :
    save_voxel 1 0 (get_pixels_hu_voxel 1 0 (-2000)) = 0 ∧
    save_voxel 1 0 (get_pixels_hu_voxel 1 0 (-2000)) ≠ -2000 := by
  have hsen : sentinel_to_zero (-2000) = 0 := by
    unfold sentinel_to_zero
    rw [if_pos (show wrap16 (-2000) = (-2000 : ℤ) by decide)]
  have hsl : slope_stage (1 : ℚ) 0 = 0 := by
    unfold slope_stage
    rw [if_neg (show ¬((1 : ℚ) ≠ 1) by simp)]
  have hg : get_pixels_hu_voxel 1 0 (-2000) = 0 := by
    unfold get_pixels_hu_voxel
    rw [hsen, hsl, ratTrunc_zero]
    decide
  have hs : save_voxel 1 0 (0 : ℤ) = 0 := by
    unfold save_voxel
    rw [show (((0 : ℤ) : ℚ) - 0) / 1 = (0 : ℚ) by norm_num, ratTrunc_zero]
    decide
  rw [hg, hs]
  exact ⟨rfl, by decide⟩

/-- C6, amended: for an integer slope `m ≠ 0` and integer intercept in
the `int16` range, and a raw sample in the `int16` range other than the
sentinel `-2000`, such that `m * raw` and `m * raw + b` stay in the
`int16` range, the write-back inverse `(value - intercept) / slope`
recovers the raw sample exactly. -/
theorem roundtrip_calibration_amended (m b raw : ℤ) (hm : m ≠ 0)
    (hraw1 : -32768 ≤ raw) (hraw2 : raw ≤ 32767) (hsent : raw ≠ -2000)
    (hb1 : -32768 ≤ b) (hb2 : b ≤ 32767)
    (hp1 : -32768 ≤ m * raw) (hp2 : m * raw ≤ 32767)
    (hs1 : -32768 ≤ m * raw + b) (hs2 : m * raw + b ≤ 32767) :
    save_voxel (m : ℚ) (b : ℚ) (get_pixels_hu_voxel (m : ℚ) (b : ℚ) raw)
      = raw := by
  rw [get_pixels_hu_voxel_eq_exact m b raw hraw1 hraw2 hsent hb1 hb2
    hp1 hp2 hs1 hs2]
  unfold save_voxel
  have hmQ : (m : ℚ) ≠ 0 := by exact_mod_cast hm
  have h0 : ((m * raw + b : ℤ) : ℚ) - (b : ℚ) = (m : ℚ) * (raw : ℚ) := by
    push_cast
    ring
  rw [h0, mul_div_cancel_left₀ _ hmQ, ratTrunc_intCast,
    wrap16_eq_self hraw1 hraw2]

/-- Witness for the amended C6 at slope 2, intercept 3, raw sample 10. -/
theorem roundtrip_calibration_amended_witness :
    save_voxel ((2 : ℤ) : ℚ) ((3 : ℤ) : ℚ)
      (get_pixels_hu_voxel ((2 : ℤ) : ℚ) ((3 : ℤ) : ℚ) 10) = 10 :=
  roundtrip_calibration_amended 2 3 10 (by decide) (by decide) (by decide)
    (by decide) (by decide) (by decide) (by decide) (by decide)
    (by decide) (by decide)

/-! ## `apply_mask_and_get_values` (lines 100-112)

Element-wise numpy operations on the flattened volume, modelled on
lists in row-major order. `np.unique` returns the sorted list of
distinct values; it is modelled as insertion sort followed by
adjacent deduplication. -/

def insertSorted (x : ℤ) : List ℤ → List ℤ
  | [] => [x]
  | y :: ys => if x ≤ y then x :: y :: ys else y :: insertSorted x ys

def sortList : List ℤ → List ℤ
  | [] => []
  | x :: xs => insertSorted x (sortList xs)

def dedupSorted : List ℤ → List ℤ
  | [] => []
  | [x] => [x]
  | x :: y :: r => if x = y then dedupSorted (y :: r) else x :: dedupSorted (y :: r)

/-- `np.unique`: the sorted list of distinct values of the array. -/
def np_unique (l : List ℤ) : List ℤ := dedupSorted (sortList l)

/-- Embedding of `apply_mask_and_get_values`: multiply the image by the
mask element-wise, take the distinct values, and keep those strictly
between `FACE_MIN_VALUE` and `FACE_MAX_VALUE`. -/
def apply_mask_and_get_values (image_volume mask_volume : List ℤ) : List ℤ :=
  ((np_unique (List.zipWith (· * ·) image_volume mask_volume)).filter
      (fun v => decide (FACE_MIN_VALUE < v))).filter
    (fun v => decide (v < FACE_MAX_VALUE))

/-! ## `apply_random_values_optimized` (lines 115-128)

The random draw `np.random.choice(len(vals), size=np.sum(mask))` is
modelled by an arbitrary stream `rnd : ℕ → ℕ` of drawn indices: the
voxel at the `k`-th masked position (in row-major order) receives
`vals[rnd k % vals.length]`. -/

def applyRandAux (rnd : ℕ → ℕ) (vals : List ℤ) :
    ℕ → List ℤ → List ℕ → List ℤ
  | _, [], _ => []
  | _, p :: ps, [] => p :: ps
  | k, p :: ps, m :: ms =>
    if m = 1 then
      vals.getD (rnd k % vals.length) 0 :: applyRandAux rnd vals (k + 1) ps ms
    else
      p :: applyRandAux rnd vals k ps ms

/-- Embedding of `apply_random_values_optimized`: copy the volume and
overwrite every position where the mask equals 1 with a drawn candidate
value. -/
def apply_random_values_optimized (rnd : ℕ → ℕ) (vals : List ℤ)
    (pixels_hu : List ℤ) (dilated_volume : List ℕ) : List ℤ :=
  applyRandAux rnd vals 0 pixels_hu dilated_volume

/-! ## Replacer dispatch in `drown_volume` (lines 209-221) -/

/-- The replacer parameter of `drown_volume`, resolved into its four
code paths: the string `face`, the string `air`, a value parseable as
an integer, and an unparseable value (which falls back to the `face`
policy with a printed warning). -/
inductive Replacer
  | face
  | air
  | num (n : ℤ)
  | invalid (s : String)

/-- The candidate value list chosen by `drown_volume` for each
replacer, from the calibrated volume and the ring mask
`dilated_volume - processed_volume` (flattened). -/
def drown_unique_values (pixels_hu ring : List ℤ) : Replacer → List ℤ
  | Replacer.face => apply_mask_and_get_values pixels_hu ring
  | Replacer.air => [0]
  | Replacer.num n => [n]
  | Replacer.invalid _ => apply_mask_and_get_values pixels_hu ring

/-! ## Claims C7, C3, C4, C2, C9 -/

/-- C7: every value in the tissue-sampled (`face`) candidate list lies
strictly between `FACE_MIN_VALUE = -125` and `FACE_MAX_VALUE = 50`. -/
theorem face_candidates_within_bounds (image_volume mask_volume : List ℤ)
    (v : ℤ) (hv : v ∈ apply_mask_and_get_values image_volume mask_volume) :
    FACE_MIN_VALUE < v ∧ v < FACE_MAX_VALUE := by
  unfold apply_mask_and_get_values at hv
  rw [List.mem_filter] at hv
  obtain ⟨hv1, hv2⟩ := hv
  rw [List.mem_filter] at hv1
  obtain ⟨_, hv3⟩ := hv1
  exact ⟨by simpa using hv3, by simpa using hv2⟩

/-- Witness for C7: the value 40 harvested from a one-voxel ring. -/
theorem face_candidates_within_bounds_witness :
    (40 : ℤ) ∈ apply_mask_and_get_values [40] [1] ∧
    FACE_MIN_VALUE < 40 ∧ (40 : ℤ) < FACE_MAX_VALUE :=
  ⟨by decide, face_candidates_within_bounds [40] [1] 40 (by decide)⟩

/-- C3 (code bug): the tissue-sampled candidate list does not exclude
zero. Any voxel outside the ring contributes the masked value 0, and
the filter `FACE_MIN_VALUE < v < FACE_MAX_VALUE` keeps it, contrary to
the comment "excluding zero" in `apply_mask_and_get_values`: here a
one-voxel image of value 5 with an empty ring mask yields a candidate
list containing 0. -/
theorem zero_in_face_candidates :
    (0 : ℤ) ∈ apply_mask_and_get_values [5] [0] := by decide

/-- C4 (code bug): an all-zero ring mask does not yield an empty
candidate list — the tissue-sampled policy returns `[0]`, and
substitution proceeds silently, overwriting the masked voxel with 0
instead of failing loudly. -/
theorem empty_ring_gives_candidate_zero :
    apply_mask_and_get_values [5, 7] [0, 0] = [0] ∧
    apply_random_values_optimized (fun _ => 0)
      (apply_mask_and_get_values [5, 7] [0, 0]) [5, 7] [1, 0] = [0, 7] := by
  decide

theorem applyRandAux_getD_of_mask_zero (rnd : ℕ → ℕ) (vals : List ℤ) :
    ∀ (pixels : List ℤ) (mask : List ℕ) (k i : ℕ),
      mask.getD i 1 = 0 →
      (applyRandAux rnd vals k pixels mask).getD i 0 = pixels.getD i 0 := by
  intro pixels
  induction pixels with
  | nil =>
    intro mask k i _
    rfl
  | cons p ps ih =>
    intro mask k i h
    cases mask with
    | nil => simp at h
    | cons m ms =>
      cases i with
      | zero =>
        simp only [List.getD_cons_zero] at h
        subst h
        simp [applyRandAux]
      | succ i =>
        simp only [List.getD_cons_succ] at h
        by_cases hm1 : m = 1 <;>
          simp only [applyRandAux, hm1, if_true, if_false,
            List.getD_cons_succ] <;>
          simpa using ih ms _ i h

/-- C2: substitution locality — for every pixel volume, mask and
non-empty candidate list, every position at which the mask is 0 keeps
exactly its original value in the output of
`apply_random_values_optimized`. -/
theorem substitution_locality (rnd : ℕ → ℕ) (vals : List ℤ)
    (hvals : vals ≠ []) (pixels_hu : List ℤ) (dilated_volume : List ℕ)
    (i : ℕ) (hmask : dilated_volume.getD i 1 = 0) :
    (apply_random_values_optimized rnd vals pixels_hu dilated_volume).getD i 0
      = pixels_hu.getD i 0 :=
  applyRandAux_getD_of_mask_zero rnd vals pixels_hu dilated_volume 0 i hmask

/-- Witness for C2: a two-voxel volume whose second voxel is unmasked. -/
theorem substitution_locality_witness :
    ([9] : List ℤ) ≠ [] ∧ ([1, 0] : List ℕ).getD 1 1 = 0 ∧
    (apply_random_values_optimized (fun _ => 0) [9] [5, 7] [1, 0]).getD 1 0
      = ([5, 7] : List ℤ).getD 1 0 :=
  ⟨by decide, by decide,
    substitution_locality (fun _ => 0) [9] (by decide) [5, 7] [1, 0] 1
      (by decide)⟩

theorem applyRandAux_getD_single_zero (rnd : ℕ → ℕ) :
    ∀ (pixels : List ℤ) (mask : List ℕ) (k i : ℕ),
      mask.getD i 0 = 1 →
      (applyRandAux rnd [0] k pixels mask).getD i 0 = 0 := by
  intro pixels
  induction pixels with
  | nil =>
    intro mask k i _
    simp [applyRandAux]
  | cons p ps ih =>
    intro mask k i h
    cases mask with
    | nil => simp at h
    | cons m ms =>
      cases i with
      | zero =>
        simp only [List.getD_cons_zero] at h
        subst h
        simp [applyRandAux]
      | succ i =>
        simp only [List.getD_cons_succ] at h
        by_cases hm1 : m = 1 <;>
          simp only [applyRandAux, hm1, if_true, if_false,
            List.getD_cons_succ] <;>
          simpa using ih ms _ i h

/-- C9: with replacer `air`, the candidate value list is exactly `[0]`,
and every voxel under the mask equals 0 in the output volume. -/
theorem air_replacer_zero_fill (pixels_hu ring : List ℤ) :
    drown_unique_values pixels_hu ring Replacer.air = [0] ∧
    ∀ (rnd : ℕ → ℕ) (px : List ℤ) (mask : List ℕ) (i : ℕ),
      mask.getD i 0 = 1 →
      (apply_random_values_optimized rnd
          (drown_unique_values pixels_hu ring Replacer.air) px mask).getD i 0
        = 0 :=
  ⟨rfl, fun rnd px mask i h =>
    applyRandAux_getD_single_zero rnd px mask 0 i h⟩

/-- Witness for C9: a one-voxel masked volume is overwritten with 0. -/
theorem air_replacer_zero_fill_witness :
    drown_unique_values [] [] Replacer.air = [0] ∧
    (apply_random_values_optimized (fun _ => 0)
        (drown_unique_values [] [] Replacer.air) [5] [1]).getD 0 0 = 0 :=
  ⟨(air_replacer_zero_fill [] []).1,
    (air_replacer_zero_fill [] []).2 (fun _ => 0) [5] [1] 0 (by decide)⟩

/-! ## `binarize_volume` (lines 53-56) and
`largest_connected_component` (lines 58-70), per slice.

A slice is a function `Pos → ℤ` (or a mask `Pos → Bool`) on positions
`(row, column)` with explicit bounds `H`, `W`.
`cv2.connectedComponentsWithStats(·, connectivity=8)` is modelled by
8-connected reachability inside the foreground, bounded by `H * W`
steps (enough for any path in the grid); the area of a component is
its pixel count, and `np.argmax(stats[1:, AREA]) + 1` selects the
first component (in raster order of first occurrence) of maximal
area — and raises on a slice with no foreground component, which is
modelled by `none`. -/

abbrev Pos := ℕ × ℕ

/-- All grid positions of an `H × W` slice in row-major order. -/
def gridList (H W : ℕ) : List Pos :=
  (List.range H).flatMap (fun y => (List.range W).map (fun x => (y, x)))

/-- 8-connectivity: the two positions differ by at most one in each
coordinate and are distinct. -/
def adj8 (p q : Pos) : Bool :=
  decide (((p.1 : ℤ) - (q.1 : ℤ)).natAbs ≤ 1) &&
    decide (((p.2 : ℤ) - (q.2 : ℤ)).natAbs ≤ 1) && decide (p ≠ q)

/-- `reachB fg grid n p q`: `q` is reachable from `p` in at most `n`
steps through foreground pixels of the grid. -/
def reachB (fg : Pos → Bool) (grid : List Pos) : ℕ → Pos → Pos → Bool
  | 0, p, q => decide (p = q)
  | n + 1, p, q =>
    reachB fg grid n p q ||
      grid.any (fun r => fg r && adj8 r q && reachB fg grid n p r)

/-- `q` lies in the same 8-connected foreground component as `p`. -/
def inComp (H W : ℕ) (fg : Pos → Bool) (p q : Pos) : Bool :=
  fg p && fg q && reachB fg (gridList H W) (H * W) p q

/-- Pixel count of the component of `p` (`stats[·, cv2.CC_STAT_AREA]`). -/
def areaOf (H W : ℕ) (fg : Pos → Bool) (p : Pos) : ℕ :=
  (gridList H W).countP (inComp H W fg p)

/-- Embedding of `largest_connected_component`: the mask keeping only
the first foreground component of maximal area, or `none` when the
slice has no foreground pixel (the `np.argmax` of an empty `stats[1:]`
raises `ValueError` in the code). -/
def largest_connected_component (H W : ℕ) (fg : Pos → Bool) :
    Option (Pos → Bool) :=
  match ((gridList H W).filter fg).find? (fun p =>
      areaOf H W fg p ==
        ((((gridList H W).filter fg).map (areaOf H W fg)).foldr max 0)) with
  | none => none
  | some p0 => some (inComp H W fg p0)

/-- Embedding of `binarize_volume` on one slice: mark 1 exactly the
voxels with intensity `≤ air_hu`. -/
def binarize_slice (v : Pos → ℤ) (air_hu : ℤ) : Pos → ℕ :=
  fun p => if v p ≤ air_hu then 1 else 0

/-- The per-slice mask `drown_volume` hands to dilation
(`get_largest_component_volume(binarize_volume(pixels_hu))`):
the largest component of the nonzero pixels of the binarized slice. -/
def body_mask_slice (H W : ℕ) (v : Pos → ℤ) : Option (Pos → Bool) :=
  largest_connected_component H W
    (fun p => decide (binarize_slice v AIR_THRESHOLD p ≠ 0))

/-- Modelled from the spec (for the refinement comparison in C1): the
largest 8-connected component of the non-air voxels, i.e. of the
voxels with intensity strictly above the air threshold. -/
def spec_nonair_mask_slice (H W : ℕ) (v : Pos → ℤ) : Option (Pos → Bool) :=
  largest_connected_component H W (fun p => decide (AIR_THRESHOLD < v p))

/-- The amended reading of C1: the largest 8-connected component of
the air voxels, those with intensity `≤ AIR_THRESHOLD`. -/
def air_component_mask_slice (H W : ℕ) (v : Pos → ℤ) : Option (Pos → Bool) :=
  largest_connected_component H W (fun p => decide (v p ≤ AIR_THRESHOLD))

/-- A 1 × 2 slice with one air voxel at `(0,0)` and one tissue voxel
at `(0,1)`. -/
def twoVoxelSlice : Pos → ℤ := fun p => if p = (0, 0) then -1000 else 0

/-- C1, counterexample: on `twoVoxelSlice`, the mask computed by the
code keeps the air voxel `(0,0)` and drops the non-air voxel `(0,1)`,
while the largest component of the non-air voxels is exactly the
opposite — the code does not select the largest component of the
non-air voxels. -/
theorem body_mask_not_largest_nonair_component :
    (body_mask_slice 1 2 twoVoxelSlice).map (fun m => m (0, 0)) = some true ∧
    (body_mask_slice 1 2 twoVoxelSlice).map (fun m => m (0, 1)) = some false ∧
    (spec_nonair_mask_slice 1 2 twoVoxelSlice).map (fun m => m (0, 0))
      = some false ∧
    (spec_nonair_mask_slice 1 2 twoVoxelSlice).map (fun m => m (0, 1))
      = some true := by
  decide

/-- C1, amended: the mask handed to the Face-Region Expander is, per
slice, the largest 8-connected component of the air voxels (intensity
`≤ AIR_THRESHOLD`, default −800), all other components being
discarded. -/
theorem body_mask_is_largest_air_component (H W : ℕ) (v : Pos → ℤ) :
    body_mask_slice H W v = air_component_mask_slice H W v := by
  unfold body_mask_slice air_component_mask_slice
  congr 1
  funext p
  unfold binarize_slice
  by_cases h : v p ≤ AIR_THRESHOLD
  · rw [if_pos h]
    simp [h]
  · rw [if_neg h]
    simp [h]

/-- C8, counterexample: a slice consisting only of air (hence with
zero non-air connected components) does not make the segmenter fail;
it returns the full-slice mask. -/
theorem all_air_slice_gets_full_mask :
    ((gridList 1 1).all
        (fun p => decide ((fun _ => (-1024 : ℤ)) p ≤ AIR_THRESHOLD))
      = true) ∧
    (body_mask_slice 1 1 (fun _ => (-1024 : ℤ))).map (fun m => m (0, 0))
      = some true := by
  decide

/-- C8, amended: the per-slice failure (`np.argmax` on an empty
`stats[1:]`) occurs exactly when the binarized foreground is empty,
i.e. when every voxel of the slice is strictly above the air
threshold: such a slice yields no body mask. -/
theorem no_air_slice_fails (H W : ℕ) (v : Pos → ℤ)
    (h : ∀ p ∈ gridList H W, AIR_THRESHOLD < v p) :
    body_mask_slice H W v = none := by
  unfold body_mask_slice largest_connected_component
  have hfil : (gridList H W).filter
      (fun p => decide (binarize_slice v AIR_THRESHOLD p ≠ 0)) = [] := by
    rw [List.filter_eq_nil_iff]
    intro p hp
    have hv := h p hp
    unfold binarize_slice
    rw [if_neg (not_le.mpr hv)]
    simp
  rw [hfil]
  rfl

/-- Witness for the amended C8: a slice of a single tissue voxel. -/
theorem no_air_slice_fails_witness :
    body_mask_slice 1 1 (fun _ => (0 : ℤ)) = none :=
  no_air_slice_fails 1 1 (fun _ => (0 : ℤ)) (by decide)

/-! ## `dilate_volume` (lines 85-97)

`cv2.getStructuringElement(cv2.MORPH_ELLIPSE, (k, k))` marks, in row
`i` with `dy = i - k/2` and `|dy| ≤ k/2`, the columns `j` with
`max(c - dx, 0) ≤ j < min(c + dx + 1, k)` where `c = k/2` and
`dx = round(c * sqrt((r^2 - dy^2) / r^2)) = round(sqrt(r^2 - dy^2))`
for the square kernel (`r = c = k/2`); other rows are empty.
`cv2.dilate` with the default centred anchor takes, at each pixel, the
maximum of the image over the kernel translated to that pixel, ignoring
out-of-bounds positions (the default border value of dilation acts as
`-∞`). -/

/-- The integer square root `⌊√n⌋`, as the largest `s ≤ n` with
`s * s ≤ n`. -/
def isqrt (n : ℕ) : ℕ :=
  ((List.range (n + 1)).filter (fun s => decide (s * s ≤ n))).foldr max 0

/-- The nearest natural number to `√n` (the `saturate_cast<int>` of the
C `sqrt` on exact input). -/
def roundSqrt (n : ℕ) : ℕ :=
  if n ≤ isqrt n * isqrt n + isqrt n then isqrt n else isqrt n + 1

/-- Half-width of the ellipse row at distance `dyAbs` from the centre,
for a square kernel of radius `r`. -/
def ellipseDx (r dyAbs : ℕ) : ℕ := roundSqrt (r * r - dyAbs * dyAbs)

/-- The circular (`MORPH_ELLIPSE`) structuring element of size
`k × k`: `true` at the kernel cells marked 1 by
`cv2.getStructuringElement`. -/
def ellipseKernel (k i j : ℕ) : Bool :=
  decide ((((i : ℤ) - ((k / 2 : ℕ) : ℤ)).natAbs ≤ k / 2) ∧
    (((k / 2 : ℕ) : ℤ)
        - (ellipseDx (k / 2) ((i : ℤ) - ((k / 2 : ℕ) : ℤ)).natAbs : ℤ)
      ≤ (j : ℤ)) ∧
    ((j : ℤ) <
      min (((k / 2 : ℕ) : ℤ)
          + (ellipseDx (k / 2) ((i : ℤ) - ((k / 2 : ℕ) : ℤ)).natAbs : ℤ) + 1)
        (k : ℤ)))

/-- Embedding of one slice of `cv2.dilate(img, kernel)`: the maximum of
the image over the in-bounds translates of the kernel cells, anchored
at the kernel centre. -/
def dilateSlice (k H W : ℕ) (img : Pos → ℕ) (p : Pos) : ℕ :=
  ((List.range k).flatMap (fun i => (List.range k).filterMap (fun j =>
    if ellipseKernel k i j = true then
      if 0 ≤ (p.1 : ℤ) + (i : ℤ) - ((k / 2 : ℕ) : ℤ) ∧
          (p.1 : ℤ) + (i : ℤ) - ((k / 2 : ℕ) : ℤ) < (H : ℤ) ∧
          0 ≤ (p.2 : ℤ) + (j : ℤ) - ((k / 2 : ℕ) : ℤ) ∧
          (p.2 : ℤ) + (j : ℤ) - ((k / 2 : ℕ) : ℤ) < (W : ℤ) then
        some (img (((p.1 : ℤ) + (i : ℤ) - ((k / 2 : ℕ) : ℤ)).toNat,
          ((p.2 : ℤ) + (j : ℤ) - ((k / 2 : ℕ) : ℤ)).toNat))
      else none
    else none))).foldr max 0

/-- Embedding of `dilate_volume`: dilation applied to every slice
independently. -/
def dilate_volume (k H W : ℕ) (vol : ℕ → Pos → ℕ) : ℕ → Pos → ℕ :=
  fun s => dilateSlice k H W (vol s)

theorem le_foldr_max {l : List ℕ} {a : ℕ} (h : a ∈ l) :
    a ≤ l.foldr max 0 := by
  induction l with
  | nil => cases h
  | cons x xs ih =>
    rw [List.foldr_cons]
    rcases List.mem_cons.mp h with h1 | h2
    · subst h1
      exact le_max_left _ _
    · exact le_trans (ih h2) (le_max_right _ _)

theorem foldr_max_le {l : List ℕ} {c : ℕ} (h : ∀ a ∈ l, a ≤ c) :
    l.foldr max 0 ≤ c := by
  induction l with
  | nil => exact Nat.zero_le c
  | cons x xs ih =>
    rw [List.foldr_cons]
    exact max_le (h x (by simp)) (ih fun a ha => h a (by simp [ha]))

/-- C5: dilation never shrinks a mask — on a binary mask volume, every
in-bounds voxel equal to 1 before dilation with the circular
structuring element is still 1 after it. -/
theorem dilation_never_shrinks (H W : ℕ) (vol : ℕ → Pos → ℕ)
    (hbin : ∀ s p, vol s p ≤ 1) (s : ℕ) (p : Pos)
    (hy : p.1 < H) (hx : p.2 < W) (h1 : vol s p = 1) :
    dilate_volume KERNEL_SIZE H W vol s p = 1 := by
  unfold dilate_volume dilateSlice
  apply le_antisymm
  · apply foldr_max_le
    intro a ha
    rw [List.mem_flatMap] at ha
    obtain ⟨i, _, ha⟩ := ha
    rw [List.mem_filterMap] at ha
    obtain ⟨j, _, hsome⟩ := ha
    by_cases hk : ellipseKernel KERNEL_SIZE i j = true
    · rw [if_pos hk] at hsome
      by_cases hb : 0 ≤ (p.1 : ℤ) + (i : ℤ) - ((KERNEL_SIZE / 2 : ℕ) : ℤ) ∧
          (p.1 : ℤ) + (i : ℤ) - ((KERNEL_SIZE / 2 : ℕ) : ℤ) < (H : ℤ) ∧
          0 ≤ (p.2 : ℤ) + (j : ℤ) - ((KERNEL_SIZE / 2 : ℕ) : ℤ) ∧
          (p.2 : ℤ) + (j : ℤ) - ((KERNEL_SIZE / 2 : ℕ) : ℤ) < (W : ℤ)
      · rw [if_pos hb] at hsome
        obtain rfl := Option.some_injective _ hsome
        exact hbin s _
      · rw [if_neg hb] at hsome
        cases hsome
    · rw [if_neg hk] at hsome
      cases hsome
  · apply le_foldr_max
    rw [List.mem_flatMap]
    refine ⟨17, by decide, ?_⟩
    rw [List.mem_filterMap]
    refine ⟨17, by decide, ?_⟩
    rw [if_pos (by decide : ellipseKernel KERNEL_SIZE 17 17 = true)]
    have hk2 : ((KERNEL_SIZE / 2 : ℕ) : ℤ) = 17 := by decide
    have e1 : (p.1 : ℤ) + ((17 : ℕ) : ℤ) - ((KERNEL_SIZE / 2 : ℕ) : ℤ)
        = (p.1 : ℤ) := by
      rw [hk2]
      push_cast
      ring
    have e2 : (p.2 : ℤ) + ((17 : ℕ) : ℤ) - ((KERNEL_SIZE / 2 : ℕ) : ℤ)
        = (p.2 : ℤ) := by
      rw [hk2]
      push_cast
      ring
    rw [if_pos ?_]
    · rw [e1, e2, Int.toNat_natCast, Int.toNat_natCast]
      rw [show ((p.1, p.2) : Pos) = p from rfl]
      rw [h1]
    · rw [e1, e2]
      refine ⟨by positivity, by exact_mod_cast hy, by positivity,
        by exact_mod_cast hx⟩

/-- Witness for C5: dilating the all-ones 1 × 1 mask keeps its voxel. -/
theorem dilation_never_shrinks_witness :
    dilate_volume KERNEL_SIZE 1 1 (fun _ _ => 1) 0 (0, 0) = 1 :=
  dilation_never_shrinks 1 1 (fun _ _ => 1) (fun _ _ => le_refl 1) 0 (0, 0)
    (by decide) (by decide) rfl

end FaceDeid
